import Mathlib

/-!
Shallow embedding of `summarizer13.py` (vtt-summarizer).

The program reads a WebVTT transcript and an optional CSV attendance file,
runs an LLM pipeline, and stitches the result into a markdown document.
The LLM calls themselves are external; everything below models the pure
string/list processing of the source: `read_csv_file`, `read_vtt_file`,
`format_timestamp`, `structure_markdown`, and the path/base-name logic of
`process_files` / `main`.

Python string primitives (`str.strip`, `str.split`, `str.join`,
`str.replace`, `str.rstrip`) are modelled on character lists so that all
definitions evaluate by kernel reduction.  Python `str.strip()` strips the
ASCII whitespace characters (Unicode whitespace beyond ASCII is not
modelled; none of the claims depends on it).
-/

namespace Vtt

/-- The ASCII whitespace set stripped by Python `str.strip()`. -/
def isPySpace (c : Char) : Bool :=
  c = ' ' || c = '\t' || c = '\n' || c = '\r' || c = '\x0b' || c = '\x0c'

/-- Python `s.strip()`: drop leading and trailing whitespace. -/
def pyStrip (s : String) : String :=
  String.mk (((s.data.dropWhile isPySpace).reverse.dropWhile isPySpace).reverse)

/-- Python `s.rstrip(c)`: drop every trailing occurrence of `c`. -/
def pyRstripChar (c : Char) (s : String) : String :=
  String.mk ((s.data.reverse.dropWhile (· = c)).reverse)

/-- Split a character list at every occurrence of `c` (the separators are
consumed).  Always returns at least one (possibly empty) piece, like
Python `str.split(c)`. -/
def splitOnChar (c : Char) : List Char → List (List Char)
  | [] => [[]]
  | x :: rest =>
    if x = c then [] :: splitOnChar c rest
    else
      match splitOnChar c rest with
      | [] => [[x]]
      | piece :: pieces => (x :: piece) :: pieces

/-- Python `s.split(c)` for a one-character separator. -/
def pySplitChar (c : Char) (s : String) : List String :=
  (splitOnChar c s.data).map String.mk

/-- Python `s.split('\n')`. -/
def splitLines (s : String) : List String :=
  pySplitChar '\n' s

/-- Python `sep.join(parts)`. -/
def pyJoin (sep : String) : List String → String
  | [] => ""
  | [x] => x
  | x :: y :: ys => x ++ sep ++ pyJoin sep (y :: ys)

/-- Join lines with `'\n'` between them: Python `"\n".join(lines)`,
the inverse of `splitLines` on newline-free lines. -/
def joinLines (ls : List String) : String :=
  pyJoin "\n" ls

/-- Concatenation of lines with a `'\n'` *after every* line (the shape in
which `structure_markdown` accumulates its output). -/
def nlConcat : List String → String
  | [] => ""
  | l :: ls => l ++ "\n" ++ nlConcat ls

/-- A participant record: fields 0 and 2 of a CSV attendance row
(see `read_csv_file` in the source). -/
structure Participant where
  name : String
  total_duration : String
deriving DecidableEq, Repr

/-- Exceptions that the modelled code can raise. -/
inductive PyExc where
  | stopIteration
  | valueError
  | overflowError
deriving DecidableEq, Repr

/-- One CSV data row appended by the loop body of `read_csv_file`:
`if len(row) >= 3: participants.append({"name": row[0].strip(), "total_duration": row[2].strip()})`. -/
def addRow (acc : List Participant) (row : List String) : List Participant :=
  match row with
  | name :: _ :: dur :: _ => acc ++ [⟨pyStrip name, pyStrip dur⟩]
  | _ => acc

/-- Model of `read_csv_file` (source lines 124-134) on the list of rows the
`csv.reader` yields for the file.  The four `next(csv_reader)` calls raise
`StopIteration` (uncaught) when the file has fewer than 4 rows; otherwise
the remaining rows are folded through `addRow`. -/
def read_csv_file (rows : List (List String)) : Except PyExc (List Participant) :=
  if rows.length < 4 then Except.error PyExc.stopIteration
  else Except.ok ((rows.drop 4).foldl addRow [])

/-- The participant record produced from one well-formed (≥ 3 fields) row. -/
def rowRecord (row : List String) : Participant :=
  ⟨pyStrip (row.getD 0 ""), pyStrip (row.getD 2 "")⟩

/-- The caller-side guard around `read_csv_file` (source lines 223 and 253):
`participants = read_csv_file(csv_file_path) if os.path.exists(csv_file_path) else []`.
`none` models a nonexistent attendance file. -/
def readParticipantsIfExists (attendance : Option (List (List String))) :
    Except PyExc (List Participant) :=
  match attendance with
  | none => Except.ok []
  | some rows => read_csv_file rows

/-- One caption cue of a WebVTT file as exposed by the `webvtt` library:
a start time, an end time (`stop` here, `caption.end` in Python) and a text
payload. -/
structure Caption where
  start : String
  stop : String
  text : String
deriving DecidableEq, Repr

/-- Model of `read_vtt_file` (source lines 136-141) on the caption list
parsed from the file: `" ".join([caption.text for caption in vtt])`. -/
def read_vtt_file (captions : List Caption) : String :=
  pyJoin " " (captions.map Caption.text)

/-! Markdown structurer (`structure_markdown`, source lines 172-195) -/

/-- The four literal section names recognized by `structure_markdown`. -/
def sectionHeaders : List String :=
  ["Meeting Overview", "Main Topics", "Decisions and Impact", "Action Items"]

/-- Whether a line begins with one of the four literal section names — the
lookahead of the regex
`\n(?=(?:Meeting Overview|Main Topics|Decisions and Impact|Action Items))`.
(The literals contain no newline, so testing the next line is the same as
testing the remaining text.) -/
def startsWithHeader (line : String) : Bool :=
  sectionHeaders.any (fun h => h.data.isPrefixOf line.data)

/-- Regroup the lines of the input into the chunks produced by applying
`re.split` with the pattern `\n(?=(?:Meeting Overview|...))` to the content:
the split consumes exactly those newlines that are immediately followed by a
section name, so a new chunk starts at every line (other than the first)
that begins with one.  `acc` holds the lines of the current chunk in
reverse. -/
def groupSections (acc : List String) : List String → List (List String)
  | [] => [acc.reverse]
  | l :: ls =>
    if startsWithHeader l then acc.reverse :: groupSections [l] ls
    else groupSections (l :: acc) ls

/-- The chunk list of `structure_markdown`, each chunk already re-split into
its lines (the source immediately applies `section.split('\n')` to every
chunk, so the two `re.split`/`str.split` steps are modelled together). -/
def splitSections (content : String) : List (List String) :=
  match splitLines content with
  | [] => []
  | l :: ls => groupSections [l] ls

/-- Line emission: `if line.strip(): structured_content += line` plus a newline. -/
def emitLine (acc line : String) : String :=
  if pyStrip line = "" then acc else acc ++ line ++ "\n"

/-- The loop body of `structure_markdown` for one chunk: if the first line
strips to a recognized section name, emit it as a `## ` header and then the
non-blank remaining lines; otherwise emit all non-blank lines unheadered.
Either way a blank line is appended.  (`section.split` never returns an
empty list, so the `[]` case — the vacuous `if lines:` guard of the Python
code — is unreachable.) -/
def processChunk (acc : String) (lines : List String) : String :=
  match lines with
  | [] => acc
  | first :: rest =>
    (if sectionHeaders.contains (pyStrip first) then
      rest.foldl emitLine (acc ++ "## " ++ pyStrip first ++ "\n")
    else
      (first :: rest).foldl emitLine acc) ++ "\n"

/-- The participant bullet `- {name} (Total Duration: {total_duration})`. -/
def bulletLine (p : Participant) : String :=
  "- " ++ p.name ++ " (Total Duration: " ++ p.total_duration ++ ")"

/-- Model of `structure_markdown` (source lines 172-195).  The `title` parameter is
accepted and never used, exactly as in the source. -/
def structure_markdown (content title base_name : String)
    (participants : List Participant) : String :=
  let structured₁ := "# " ++ base_name ++ "\n\n"
  let structured₂ := (splitSections content).foldl processChunk structured₁
  let structured₃ := structured₂ ++ "## Participants\n"
  participants.foldl (fun acc p => acc ++ bulletLine p ++ "\n") structured₃

/-! Orchestrator path logic (`process_files` lines 218-227, `main` lines 251-260) -/

/-- Python `s.replace(pat, rep)`: replace every (leftmost, non-overlapping)
occurrence of `pat`.  Structural recursion on a fuel argument (one unit per
character consumed, so `cs.length` units always suffice); the fuel keeps
the definition kernel-reducible. -/
def replaceFuel (pat rep : List Char) : Nat → List Char → List Char
  | 0, cs => cs
  | fuel + 1, cs =>
    match cs with
    | [] => []
    | c :: cs' =>
      if pat ≠ [] ∧ pat.isPrefixOf cs then
        rep ++ replaceFuel pat rep fuel (cs.drop pat.length)
      else
        c :: replaceFuel pat rep fuel cs'

/-- Python `s.replace(pat, rep)` on character lists. -/
def replaceList (pat rep cs : List Char) : List Char :=
  replaceFuel pat rep cs.length cs

/-- Python `s.replace(pat, rep)` on strings. -/
def pyReplace (s pat rep : String) : String :=
  String.mk (replaceList pat.data rep.data s.data)

/-- The base name derived by the orchestrator (source lines 221 and 251):
`os.path.basename(file_path).replace(".vtt", "")` — note this removes
*every* occurrence of `".vtt"`, not only a final extension. -/
def base_name_of (fileName : String) : String :=
  pyReplace fileName ".vtt" ""

/-- The extension-stripping the spec describes ("strip the caption-file
extension"), for comparison with `base_name_of`. -/
def stripVttExtension (fileName : String) : String :=
  if ".vtt".data.isSuffixOf fileName.data then
    String.mk (fileName.data.take (fileName.data.length - 4))
  else fileName

/-- Whether `glob.glob(os.path.join(directory, "*.vtt"))` matches a file
name: `fnmatch` of the pattern `*.vtt`, i.e. the name ends in `".vtt"`. -/
def matchesVttGlob (fileName : String) : Bool :=
  ".vtt".data.isSuffixOf fileName.data

/-- Python `os.path.join(a, b)` for POSIX paths (two components). -/
def path_join (a b : String) : String :=
  if "/".data.isPrefixOf b.data then b
  else if a = "" then b
  else if a.data.getLast? = some '/' then a ++ b
  else a ++ "/" ++ b

/-- The default output path built by `process_files` (line 227) and `main`
(line 260): `os.path.join(directory, "md", f"summary_{base_name}_{timestamp}.md")`.
The timestamp string is `datetime.now().strftime("%Y%m%d%H%M%S")`, modelled
as a parameter. -/
def md_file_path (directory base_name timestamp : String) : String :=
  path_join (path_join directory "md") ("summary_" ++ base_name ++ "_" ++ timestamp ++ ".md")

/-! Model of `format_timestamp` (source lines 143-158).

`format_timestamp` is defined in the source but has no caller.  Its `try`
body uses Python `int(...)`, `float(...)` and `str(timedelta(seconds=n))`;
these are modelled below on the decimal grammar with exact arithmetic
(IEEE-754 rounding/range of `float` and underscore digit separators are not
modelled).  A `ValueError` from parsing is caught by the `except` clause;
`int(float("inf"))` raises `OverflowError`, which is *not* caught. -/

/-- Python `pat in s` substring containment, on character lists. -/
def hasInfix (pat : List Char) : List Char → Bool
  | [] => pat.isEmpty
  | c :: cs => pat.isPrefixOf (c :: cs) || hasInfix pat cs

/-- Numeric value of a digit string. -/
def digitsVal (ds : List Char) : Nat :=
  ds.foldl (fun n c => n * 10 + (c.toNat - '0'.toNat)) 0

/-- Python `int(s)`: optional surrounding whitespace, optional sign,
nonempty run of decimal digits; anything else raises `ValueError`. -/
def pyInt (s : String) : Except PyExc Int :=
  match (pyStrip s).data with
  | '+' :: ds =>
    if ds ≠ [] ∧ ds.all Char.isDigit then Except.ok (digitsVal ds)
    else Except.error PyExc.valueError
  | '-' :: ds =>
    if ds ≠ [] ∧ ds.all Char.isDigit then Except.ok (-(digitsVal ds : Int))
    else Except.error PyExc.valueError
  | ds =>
    if ds ≠ [] ∧ ds.all Char.isDigit then Except.ok (digitsVal ds)
    else Except.error PyExc.valueError

/-- Integer-part/fraction-length of a float mantissa: `digits`, `digits.`,
`.digits` or `digits.digits`. -/
def parseMantissa (m : List Char) : Option (Nat × Nat) :=
  match splitOnChar '.' m with
  | [i] =>
    if i ≠ [] ∧ i.all Char.isDigit then some (digitsVal i, 0) else none
  | [i, f] =>
    if (i ≠ [] ∨ f ≠ []) ∧ i.all Char.isDigit ∧ f.all Char.isDigit then
      some (digitsVal (i ++ f), f.length)
    else none
  | _ => none

/-- The exponent of a float literal: optional sign, nonempty digits. -/
def parseExp (ex : List Char) : Option Int :=
  match ex with
  | '+' :: ds =>
    if ds ≠ [] ∧ ds.all Char.isDigit then some ((digitsVal ds : Int)) else none
  | '-' :: ds =>
    if ds ≠ [] ∧ ds.all Char.isDigit then some (-(digitsVal ds : Int)) else none
  | ds =>
    if ds ≠ [] ∧ ds.all Char.isDigit then some ((digitsVal ds : Int)) else none

/-- Truncated magnitude of `v × 10^(e-f)` (mantissa digits `v`, `f` of them
fractional, exponent `e`). -/
def truncDecimal (v f : Nat) (e : Int) : Nat :=
  if (f : Int) ≤ e then v * 10 ^ (e - f).toNat else v / 10 ^ ((f : Int) - e).toNat

/-- Python `int(float(s))`: `ValueError` if `s` is not a float literal (or
is `nan`), `OverflowError` if it is `±inf`. -/
def pyIntOfFloat (s : String) : Except PyExc Int :=
  let lowered := (pyStrip s).data.map Char.toLower
  let signBody : Bool × List Char :=
    match lowered with
    | '+' :: r => (false, r)
    | '-' :: r => (true, r)
    | r => (false, r)
  let neg := signBody.1
  let body := signBody.2
  if body = "inf".data ∨ body = "infinity".data then Except.error PyExc.overflowError
  else if body = "nan".data then Except.error PyExc.valueError
  else
    let mexp : Option (Nat × Nat × Int) :=
      match splitOnChar 'e' body with
      | [m] => (parseMantissa m).map (fun vf => (vf.1, vf.2, (0 : Int)))
      | [m, ex] =>
        match parseMantissa m, parseExp ex with
        | some vf, some e => some (vf.1, vf.2, e)
        | _, _ => none
      | _ => none
    match mexp with
    | none => Except.error PyExc.valueError
    | some (v, f, e) =>
      let mag : Int := truncDecimal v f e
      Except.ok (if neg then -mag else mag)

/-- Two-digit zero-padded field of `str(timedelta)`. -/
def pad2 (n : Nat) : String :=
  if n < 10 then "0" ++ toString n else toString n

/-- Python `str(timedelta(seconds=n))` for whole seconds:
`[D day(s), ]H:MM:SS` with the days/seconds normalization of `timedelta`
(days is the floor quotient, the remainder is non-negative). -/
def timedeltaStr (secs : Int) : String :=
  let d : Int := secs / 86400
  let r : Nat := (secs % 86400).toNat
  let hms := toString (r / 3600) ++ ":" ++ pad2 (r % 3600 / 60) ++ ":" ++ pad2 (r % 60)
  if d = 0 then hms
  else toString d ++ (if d = 1 ∨ d = -1 then " day, " else " days, ") ++ hms

/-- Python `s[:-3]`. -/
def pyDropLast3 (s : String) : String :=
  String.mk (s.data.take (s.data.length - 3))

/-- The `try` body of `format_timestamp` (source lines 144-155):
the branch for `"t=" in timestamp`, else split on `":"` (3 parts unchanged, 2 parts
prefixed with `"00:"`), else `int(float(timestamp))` rendered through
`timedelta`. -/
def format_timestamp_attempt (timestamp : String) : Except PyExc String :=
  if hasInfix "t=".data timestamp.data then
    match pyInt (pyRstripChar 's' ((pySplitChar '=' timestamp).getD 1 "")) with
    | Except.ok n => Except.ok (pyDropLast3 (timedeltaStr n))
    | Except.error e => Except.error e
  else
    let parts := pySplitChar ':' timestamp
    if parts.length = 3 then Except.ok timestamp
    else if parts.length = 2 then Except.ok ("00:" ++ timestamp)
    else
      match pyIntOfFloat timestamp with
      | Except.ok n => Except.ok (pyDropLast3 (timedeltaStr n))
      | Except.error e => Except.error e

/-- Model of `format_timestamp` (source lines 143-158): the `try` body with
`except ValueError` logging a warning and returning the input unchanged.
Any other exception propagates. -/
def format_timestamp (timestamp : String) : Except PyExc String :=
  match format_timestamp_attempt timestamp with
  | Except.ok s => Except.ok s
  | Except.error PyExc.valueError => Except.ok timestamp
  | Except.error e => Except.error e

/-! Derived descriptions of the output of the structurer

`structure_markdown` only ever appends whole lines, each terminated by a
`'\n'`.  The definitions below name the list of lines it appends; the
master lemma `structure_markdown_eq` states that the function equals the
`nlConcat` of that list. -/

/-- The guard of `if line.strip():` as a Bool predicate on lines. -/
def keepLine (l : String) : Bool :=
  pyStrip l != ""

/-- The lines one chunk contributes to the output (before the blank line
that closes every chunk). -/
def chunkEmit (lines : List String) : List String :=
  match lines with
  | [] => []
  | first :: rest =>
    if sectionHeaders.contains (pyStrip first) then
      ("## " ++ pyStrip first) :: rest.filter keepLine
    else
      (first :: rest).filter keepLine

/-- The lines all chunks contribute, each chunk closed by a blank line. -/
def sectionsEmit (chunks : List (List String)) : List String :=
  chunks.flatMap (fun c => chunkEmit c ++ [""])

/-- Every line of the document produced by `structure_markdown`. -/
def outLines (content base_name : String) (ps : List Participant) : List String :=
  ("# " ++ base_name) :: "" ::
    (sectionsEmit (splitSections content) ++ "## Participants" :: ps.map bulletLine)

/-! Lemmas: how `structure_markdown` assembles its output -/

theorem nlConcat_append (A B : List String) :
    nlConcat (A ++ B) = nlConcat A ++ nlConcat B := by
  induction A with
  | nil => simp [nlConcat, String.empty_append]
  | cons l ls ih => simp [nlConcat, ih, String.append_assoc]

theorem foldl_emitLine (ls : List String) (acc : String) :
    ls.foldl emitLine acc = acc ++ nlConcat (ls.filter keepLine) := by
  induction ls generalizing acc with
  | nil => simp [nlConcat, String.append_empty]
  | cons l ls ih =>
    by_cases h : pyStrip l = ""
    · simp [emitLine, h, ih, keepLine, List.filter_cons]
    · simp [emitLine, h, ih, keepLine, List.filter_cons, nlConcat, String.append_assoc]

theorem foldl_bullet (ps : List Participant) (acc : String) :
    ps.foldl (fun acc p => acc ++ bulletLine p ++ "\n") acc
      = acc ++ nlConcat (ps.map bulletLine) := by
  induction ps generalizing acc with
  | nil => simp [nlConcat, String.append_empty]
  | cons p ps ih =>
    rw [List.foldl_cons, ih]
    simp [nlConcat, String.append_assoc]

theorem groupSections_ne_nil (ls : List String) : ∀ (acc : List String), acc ≠ [] →
    ∀ c ∈ groupSections acc ls, c ≠ [] := by
  induction ls with
  | nil =>
    intro acc hacc c hc
    simp only [groupSections, List.mem_singleton] at hc
    subst hc
    simpa using hacc
  | cons l ls ih =>
    intro acc hacc c hc
    simp only [groupSections] at hc
    by_cases h : startsWithHeader l
    · rw [if_pos h] at hc
      rcases List.mem_cons.mp hc with h1 | h1
      · subst h1; simpa using hacc
      · exact ih [l] (by simp) c h1
    · rw [if_neg h] at hc
      exact ih (l :: acc) (by simp) c hc

theorem processChunk_eq (acc : String) (lines : List String) (h : lines ≠ []) :
    processChunk acc lines = acc ++ nlConcat (chunkEmit lines) ++ "\n" := by
  match lines with
  | [] => exact absurd rfl h
  | first :: rest =>
    simp only [processChunk, chunkEmit]
    by_cases hc : sectionHeaders.contains (pyStrip first)
    · rw [if_pos hc, if_pos hc, foldl_emitLine]
      simp [nlConcat, String.append_assoc]
    · rw [if_neg hc, if_neg hc, foldl_emitLine]

theorem foldl_processChunk (chunks : List (List String))
    (h : ∀ c ∈ chunks, c ≠ []) (acc : String) :
    chunks.foldl processChunk acc = acc ++ nlConcat (sectionsEmit chunks) := by
  induction chunks generalizing acc with
  | nil => simp [sectionsEmit, nlConcat, String.append_empty]
  | cons c cs ih =>
    rw [List.foldl_cons, processChunk_eq acc c (h c (List.mem_cons_self c cs)),
      ih (fun d hd => h d (List.mem_cons_of_mem _ hd))]
    simp [sectionsEmit, nlConcat_append, nlConcat, String.append_assoc,
      String.append_empty, String.empty_append]

theorem splitOnChar_ne_nil (c : Char) (l : List Char) : splitOnChar c l ≠ [] := by
  cases l with
  | nil => simp [splitOnChar]
  | cons x xs =>
    simp only [splitOnChar]
    by_cases h : x = c
    · simp [h]
    · rw [if_neg h]
      cases hs : splitOnChar c xs <;> simp

theorem splitSections_chunks_ne_nil (content : String) :
    ∀ c ∈ splitSections content, c ≠ [] := by
  intro c hc
  unfold splitSections at hc
  cases hl : splitLines content with
  | nil => rw [hl] at hc; simp at hc
  | cons l ls => rw [hl] at hc; exact groupSections_ne_nil ls [l] (by simp) c hc

/-- Master lemma: `structure_markdown` emits exactly the lines `outLines`,
each terminated by a newline. -/
theorem structure_markdown_eq (content t b : String) (ps : List Participant) :
    structure_markdown content t b ps = nlConcat (outLines content b ps) := by
  have h2 : ("\n\n" : String) = "\n" ++ "\n" := by decide
  have h3 : ("## Participants\n" : String) = "## Participants" ++ "\n" := by decide
  unfold structure_markdown
  rw [foldl_bullet, foldl_processChunk _ (splitSections_chunks_ne_nil content)]
  simp [outLines, nlConcat, nlConcat_append, h3, String.append_assoc,
    String.append_empty, String.empty_append]
  rw [h2, String.append_assoc]

/-! Lemmas: line splitting and chunk grouping -/

theorem mk_data (s : String) : String.mk s.data = s := rfl

theorem splitOnChar_append_cons (c : Char) (l rest : List Char) (h : c ∉ l) :
    splitOnChar c (l ++ c :: rest) = l :: splitOnChar c rest := by
  induction l with
  | nil => simp [splitOnChar]
  | cons x xs ih =>
    have hx : ¬ (x = c) := fun he => h (he ▸ List.mem_cons_self x xs)
    have hxs : c ∉ xs := fun hm => h (List.mem_cons_of_mem _ hm)
    simp only [List.cons_append, splitOnChar, if_neg hx, List.append_eq]
    rw [ih hxs]

theorem splitOnChar_no_sep (c : Char) (l : List Char) (h : c ∉ l) :
    splitOnChar c l = [l] := by
  induction l with
  | nil => rfl
  | cons x xs ih =>
    have hx : ¬ (x = c) := fun he => h (he ▸ List.mem_cons_self x xs)
    have hxs : c ∉ xs := fun hm => h (List.mem_cons_of_mem _ hm)
    simp only [splitOnChar, if_neg hx, ih hxs]

theorem data_append_nl (x rest : String) :
    (x ++ "\n" ++ rest).data = x.data ++ '\n' :: rest.data := by
  simp [String.data_append]

theorem splitLines_pyJoin (L : List String) (hne : L ≠ [])
    (hfree : ∀ l ∈ L, '\n' ∉ l.data) :
    splitLines (pyJoin "\n" L) = L := by
  induction L with
  | nil => exact absurd rfl hne
  | cons x ys ih =>
    cases ys with
    | nil =>
      simp only [pyJoin, splitLines, pySplitChar]
      rw [splitOnChar_no_sep '\n' x.data (hfree x (by simp))]
      simp [mk_data]
    | cons y ys' =>
      simp only [pyJoin, splitLines, pySplitChar]
      rw [data_append_nl, splitOnChar_append_cons '\n' x.data _ (hfree x (by simp))]
      simp only [List.map_cons, mk_data, List.cons.injEq, true_and]
      exact ih (by simp) (fun l hl => hfree l (List.mem_cons_of_mem _ hl))

theorem splitLines_nlConcat (L : List String) (hfree : ∀ l ∈ L, '\n' ∉ l.data) :
    splitLines (nlConcat L) = L ++ [""] := by
  induction L with
  | nil => rfl
  | cons x ys ih =>
    simp only [nlConcat, splitLines, pySplitChar]
    rw [data_append_nl, splitOnChar_append_cons '\n' x.data _ (hfree x (by simp))]
    simp only [List.map_cons, mk_data, List.cons_append, List.cons.injEq, true_and]
    exact ih (fun l hl => hfree l (List.mem_cons_of_mem _ hl))

theorem groupSections_pass (s : List String) (h : ∀ l ∈ s, ¬ startsWithHeader l) :
    ∀ (acc rest : List String),
      groupSections acc (s ++ rest) = groupSections (s.reverse ++ acc) rest := by
  induction s with
  | nil => intro acc rest; simp
  | cons l s' ih =>
    intro acc rest
    have hl : ¬ (startsWithHeader l = true) := h l (by simp)
    simp only [List.cons_append, groupSections, if_neg hl, List.append_eq]
    rw [ih (fun l' hl' => h l' (List.mem_cons_of_mem _ hl')) (l :: acc) rest]
    simp [List.append_assoc]

theorem groupSections_break (hh : String) (h : startsWithHeader hh)
    (acc rest : List String) :
    groupSections acc (hh :: rest) = acc.reverse :: groupSections [hh] rest := by
  simp [groupSections, h]

theorem groupSections_mem : ∀ (ls acc : List String), ∀ c ∈ groupSections acc ls,
    ∀ x ∈ c, x ∈ acc ∨ x ∈ ls := by
  intro ls
  induction ls with
  | nil =>
    intro acc c hc x hx
    simp only [groupSections, List.mem_singleton] at hc
    subst hc
    left
    simpa using hx
  | cons l ls' ih =>
    intro acc c hc x hx
    simp only [groupSections] at hc
    by_cases h : startsWithHeader l
    · rw [if_pos h] at hc
      rcases List.mem_cons.mp hc with rfl | h1
      · left; simpa using hx
      · rcases ih [l] c h1 x hx with h2 | h2
        · right; simp at h2; simp [h2]
        · right; simp [h2]
    · rw [if_neg h] at hc
      rcases ih (l :: acc) c hc x hx with h2 | h2
      · rcases List.mem_cons.mp h2 with rfl | h3
        · right; simp
        · left; exact h3
      · right; simp [h2]

theorem splitSections_mem (content : String) (c : List String)
    (hc : c ∈ splitSections content) : ∀ x ∈ c, x ∈ splitLines content := by
  intro x hx
  unfold splitSections at hc
  cases hl : splitLines content with
  | nil => rw [hl] at hc; simp at hc
  | cons l ls =>
    rw [hl] at hc
    rcases groupSections_mem ls [l] c hc x hx with h | h
    · simp at h; simp [h]
    · simp [h]

theorem chunkEmit_mem (c : List String) (x : String) (hx : x ∈ chunkEmit c) :
    (∃ h ∈ sectionHeaders, x = "## " ++ h) ∨ x ∈ c := by
  match c with
  | [] => simp [chunkEmit] at hx
  | first :: rest =>
    simp only [chunkEmit] at hx
    by_cases hc : sectionHeaders.contains (pyStrip first)
    · rw [if_pos hc] at hx
      rcases List.mem_cons.mp hx with rfl | h1
      · exact Or.inl ⟨pyStrip first, by simpa using hc, rfl⟩
      · exact Or.inr (List.mem_cons_of_mem _ (List.mem_of_mem_filter h1))
    · rw [if_neg hc] at hx
      exact Or.inr (List.mem_of_mem_filter hx)

theorem sectionsEmit_mem (chunks : List (List String)) (x : String)
    (hx : x ∈ sectionsEmit chunks) : x = "" ∨ ∃ c ∈ chunks, x ∈ chunkEmit c := by
  simp only [sectionsEmit, List.mem_flatMap] at hx
  rcases hx with ⟨c, hc, hxc⟩
  rcases List.mem_append.mp hxc with h | h
  · exact Or.inr ⟨c, hc, h⟩
  · simp at h; exact Or.inl h

/-! Lemmas: which lines of the output can carry a level-two header -/

theorem data_mk (l : List Char) : (String.mk l).data = l := rfl

theorem pyStrip_data_mem (s : String) (x : Char) (hx : x ∈ (pyStrip s).data) :
    x ∈ s.data := by
  simp only [pyStrip, data_mk] at hx
  rw [List.mem_reverse] at hx
  have h2 : x ∈ (s.data.dropWhile isPySpace).reverse := (List.dropWhile_sublist _).mem hx
  rw [List.mem_reverse] at h2
  exact (List.dropWhile_sublist _).mem h2

theorem headers_nl_free (h : String) (hmem : h ∈ sectionHeaders) : '\n' ∉ h.data := by
  simp only [sectionHeaders, List.mem_cons, List.not_mem_nil, or_false] at hmem
  rcases hmem with rfl | rfl | rfl | rfl <;> decide

theorem outLines_nl_free (content b : String) (ps : List Participant)
    (hb : '\n' ∉ b.data)
    (hps : ∀ q ∈ ps, '\n' ∉ q.name.data ∧ '\n' ∉ q.total_duration.data)
    (hcontent : ∀ l ∈ splitLines content, '\n' ∉ l.data) :
    ∀ l ∈ outLines content b ps, '\n' ∉ l.data := by
  intro l hl
  simp only [outLines, List.mem_cons, List.mem_append] at hl
  rcases hl with rfl | rfl | hl | rfl | hl
  · intro h
    rw [String.data_append] at h
    simp at h
    exact hb h
  · simp
  · rcases sectionsEmit_mem _ _ hl with rfl | ⟨c, hc, hlc⟩
    · simp
    · rcases chunkEmit_mem c l hlc with ⟨hd, hdmem, rfl⟩ | hmem
      · intro hx
        simp [String.data_append] at hx
        exact headers_nl_free hd hdmem hx
      · exact hcontent l (splitSections_mem content c hc l hmem)
  · decide
  · rcases List.mem_map.mp hl with ⟨q, hq, rfl⟩
    intro hx
    simp [bulletLine, String.data_append] at hx
    rcases hx with hx | hx
    · exact (hps q hq).1 hx
    · exact (hps q hq).2 hx

theorem structure_markdown_headers (content t b : String) (ps : List Participant)
    (hb : '\n' ∉ b.data)
    (hps : ∀ q ∈ ps, '\n' ∉ q.name.data ∧ '\n' ∉ q.total_duration.data)
    (hcontent : ∀ l ∈ splitLines content, '\n' ∉ l.data) :
    ∀ line ∈ splitLines (structure_markdown content t b ps),
      ("## ".data).isPrefixOf line.data →
      line = "## Participants" ∨ (∃ hd ∈ sectionHeaders, line = "## " ++ hd) ∨
        line ∈ splitLines content := by
  intro line hline hpre
  rw [structure_markdown_eq,
    splitLines_nlConcat _ (outLines_nl_free content b ps hb hps hcontent)] at hline
  rcases List.mem_append.mp hline with hline | hline
  · simp only [outLines, List.mem_cons, List.mem_append] at hline
    rcases hline with rfl | rfl | hline | rfl | hline
    · rw [String.data_append] at hpre
      simp [List.isPrefixOf] at hpre
    · simp [List.isPrefixOf] at hpre
    · rcases sectionsEmit_mem _ _ hline with rfl | ⟨c, hc, hlc⟩
      · simp [List.isPrefixOf] at hpre
      · rcases chunkEmit_mem c line hlc with ⟨hd, hdmem, rfl⟩ | hmem
        · exact Or.inr (Or.inl ⟨hd, hdmem, rfl⟩)
        · exact Or.inr (Or.inr (splitSections_mem content c hc line hmem))
    · exact Or.inl rfl
    · rcases List.mem_map.mp hline with ⟨q, hq, rfl⟩
      simp [bulletLine, String.data_append, List.isPrefixOf] at hpre
  · simp only [List.mem_singleton] at hline
    subst hline
    simp [List.isPrefixOf] at hpre

/-! Claim theorems -/

theorem foldl_addRow (data : List (List String)) (acc : List Participant) :
    data.foldl addRow acc
      = acc ++ (data.filter (fun r => decide (3 ≤ r.length))).map rowRecord := by
  induction data generalizing acc with
  | nil => simp
  | cons row rows ih =>
    rw [List.foldl_cons, ih]
    rcases row with _ | ⟨a, _ | ⟨b, _ | ⟨c, rest⟩⟩⟩
    · simp [addRow]
    · simp [addRow]
    · simp [addRow]
    · have hlen : (3 : Nat) ≤ (a :: b :: c :: rest).length := by simp
      simp [addRow, rowRecord, List.filter_cons, hlen]

/-- C3: for an attendance file of 4 header rows followed by data rows,
`read_csv_file` keeps exactly the rows with at least 3 fields, taking
field 0 (stripped) as the name and field 2 (stripped) as the duration; in
particular with all rows well-formed it returns exactly one record per data
row, and short rows are dropped without an error. -/
theorem read_csv_well_formed (hdr data : List (List String)) (h4 : hdr.length = 4) :
    read_csv_file (hdr ++ data)
        = Except.ok ((data.filter (fun r => decide (3 ≤ r.length))).map rowRecord)
    ∧ ((∀ r ∈ data, 3 ≤ r.length) →
        read_csv_file (hdr ++ data) = Except.ok (data.map rowRecord)) := by
  have hnot : ¬ ((hdr ++ data).length < 4) := by
    rw [List.length_append, h4]
    omega
  have hdrop : (hdr ++ data).drop 4 = data := by
    rw [← h4]
    exact List.drop_left hdr data
  constructor
  · unfold read_csv_file
    rw [if_neg hnot, hdrop, foldl_addRow]
    simp
  · intro hall
    unfold read_csv_file
    rw [if_neg hnot, hdrop, foldl_addRow,
      List.filter_eq_self.mpr (fun r hr => by simpa using hall r hr)]
    simp

theorem read_csv_well_formed_witness :
    read_csv_file ([["x1"], ["x2"], ["x3"], ["x4"]] ++
        [[" Alice ", "a@b", " 55m "], ["Bob", "c@d", "1h", "extra"]])
      = Except.ok [⟨"Alice", "55m"⟩, ⟨"Bob", "1h"⟩] :=
  ((read_csv_well_formed [["x1"], ["x2"], ["x3"], ["x4"]]
      [[" Alice ", "a@b", " 55m "], ["Bob", "c@d", "1h", "extra"]] rfl).2
    (by decide)).trans (congrArg Except.ok (by decide))

/-- C9: an attendance file with fewer than 4 rows makes `read_csv_file`
raise (the fourth `next` finds the reader exhausted), rather than return a
participant list. -/
theorem read_csv_short_file (rows : List (List String)) (h : rows.length < 4) :
    read_csv_file rows = Except.error PyExc.stopIteration := by
  unfold read_csv_file
  rw [if_pos h]

theorem read_csv_short_file_witness :
    read_csv_file [["Name", "Email", "Duration"]] = Except.error PyExc.stopIteration :=
  read_csv_short_file [["Name", "Email", "Duration"]] (by decide)

/-- C4: when the attendance file does not exist, the participant-reading
step yields the empty list instead of an error, and the pipeline proceeds
with no attendance data. -/
theorem missing_attendance_empty :
    readParticipantsIfExists none = Except.ok [] := rfl

/-- C6: the `title` argument has no influence on the generated document. -/
theorem title_unused (content t1 t2 b : String) (ps : List Participant) :
    structure_markdown content t1 b ps = structure_markdown content t2 b ps := rfl

/-- C7: `read_vtt_file` joins the text payloads of the captions, in order,
with single spaces — for captions `"Hello"`, `"world"` it returns
`"Hello world"` — and depends on nothing but the text payloads. -/
theorem read_vtt_joins_texts :
    read_vtt_file [⟨"00:00:00.000", "00:00:01.000", "Hello"⟩,
        ⟨"00:00:01.000", "00:00:02.000", "world"⟩] = "Hello world"
    ∧ (∀ caps1 caps2 : List Caption, caps1.map Caption.text = caps2.map Caption.text →
        read_vtt_file caps1 = read_vtt_file caps2)
    ∧ (∀ (c : Caption) (cs : List Caption), cs ≠ [] →
        read_vtt_file (c :: cs) = c.text ++ " " ++ read_vtt_file cs) := by
  refine ⟨by decide, ?_, ?_⟩
  · intro caps1 caps2 h
    unfold read_vtt_file
    rw [h]
  · intro c cs h
    cases cs with
    | nil => exact absurd rfl h
    | cons d ds => rfl

theorem read_vtt_joins_texts_witness :
    read_vtt_file [⟨"0", "1", "Hello"⟩] = read_vtt_file [⟨"5", "6", "Hello"⟩]
    ∧ read_vtt_file [⟨"0", "1", "a"⟩, ⟨"1", "2", "b"⟩]
        = "a" ++ " " ++ read_vtt_file [⟨"1", "2", "b"⟩] :=
  ⟨read_vtt_joins_texts.2.1 _ _ (by decide), read_vtt_joins_texts.2.2 _ _ (by decide)⟩

/-- C8: whenever the `try` body of `format_timestamp` raises `ValueError`,
the function catches it and returns the input string unchanged. -/
theorem format_timestamp_value_error (ts : String)
    (h : format_timestamp_attempt ts = Except.error PyExc.valueError) :
    format_timestamp ts = Except.ok ts := by
  unfold format_timestamp
  rw [h]

theorem format_timestamp_value_error_witness :
    format_timestamp_attempt "garbage" = Except.error PyExc.valueError
    ∧ format_timestamp "garbage" = Except.ok "garbage" :=
  ⟨rfl, format_timestamp_value_error "garbage" rfl⟩

/-- C10: every document produced by `structure_markdown` ends with a
`## Participants` header followed by exactly one bullet line per
participant; with no participants the header is still present, followed by
nothing. -/
theorem participants_block (content t b : String) (ps : List Participant) :
    ∃ pre, structure_markdown content t b [] = pre ++ "## Participants\n"
      ∧ structure_markdown content t b ps
          = pre ++ "## Participants\n" ++ nlConcat (ps.map bulletLine) := by
  have h3 : ("## Participants\n" : String) = "## Participants" ++ "\n" := by decide
  have hsplit : ∀ qs : List Participant, outLines content b qs
      = (("# " ++ b) :: "" :: sectionsEmit (splitSections content))
        ++ ("## Participants" :: qs.map bulletLine) := by
    intro qs
    simp [outLines]
  refine ⟨nlConcat (("# " ++ b) :: "" :: sectionsEmit (splitSections content)), ?_, ?_⟩
  · rw [structure_markdown_eq, hsplit, nlConcat_append]
    simp [nlConcat, h3, String.append_empty, String.append_assoc]
  · rw [structure_markdown_eq, hsplit, nlConcat_append]
    simp [nlConcat, h3, String.append_assoc]

/-- C1: on normalized input consisting of the four literal section headers
in order, each on its own line and each followed by non-blank lines (that do
not themselves begin with a section name), `structure_markdown` produces
exactly: the `# {base_name}` title, the four `## <header>` blocks in the
same order with every section line reproduced verbatim, and a trailing
`## Participants` block with one `- {name} (Total Duration: {d})` bullet
per participant, in input order. -/
theorem structure_markdown_four_sections
    (s1 s2 s3 s4 : List String) (t b : String) (ps : List Participant)
    (hlines : ∀ l ∈ s1 ++ s2 ++ s3 ++ s4,
      ¬ startsWithHeader l ∧ pyStrip l ≠ "" ∧ '\n' ∉ l.data) :
    structure_markdown
        (joinLines ("Meeting Overview" :: (s1 ++ "Main Topics" ::
          (s2 ++ "Decisions and Impact" :: (s3 ++ "Action Items" :: s4))))) t b ps
      = nlConcat (["# " ++ b, ""]
          ++ "## Meeting Overview" :: s1 ++ [""]
          ++ "## Main Topics" :: s2 ++ [""]
          ++ "## Decisions and Impact" :: s3 ++ [""]
          ++ "## Action Items" :: s4 ++ [""]
          ++ "## Participants" :: ps.map bulletLine) := by
  have h1 : ∀ l ∈ s1, ¬ startsWithHeader l := fun l hl => (hlines l (by simp [hl])).1
  have h2 : ∀ l ∈ s2, ¬ startsWithHeader l := fun l hl => (hlines l (by simp [hl])).1
  have h3 : ∀ l ∈ s3, ¬ startsWithHeader l := fun l hl => (hlines l (by simp [hl])).1
  have h4 : ∀ l ∈ s4, ¬ startsWithHeader l := fun l hl => (hlines l (by simp [hl])).1
  have hfree : ∀ l ∈ ("Meeting Overview" :: (s1 ++ "Main Topics" ::
      (s2 ++ "Decisions and Impact" :: (s3 ++ "Action Items" :: s4)))), '\n' ∉ l.data := by
    intro l hl
    have hcases : l = "Meeting Overview" ∨ l = "Main Topics" ∨ l = "Decisions and Impact"
        ∨ l = "Action Items" ∨ l ∈ s1 ++ s2 ++ s3 ++ s4 := by
      simp only [List.mem_cons, List.mem_append] at hl ⊢
      tauto
    rcases hcases with rfl | rfl | rfl | rfl | hmem
    · decide
    · decide
    · decide
    · decide
    · exact (hlines l hmem).2.2
  have hsplitL := splitLines_pyJoin _ (by simp) hfree
  have g4 : groupSections ["Action Items"] s4 = [("Action Items" :: s4)] :=
    calc groupSections ["Action Items"] s4
        = groupSections ["Action Items"] (s4 ++ []) := by rw [List.append_nil]
      _ = groupSections (s4.reverse ++ ["Action Items"]) [] :=
          groupSections_pass s4 h4 ["Action Items"] []
      _ = [("Action Items" :: s4)] := by simp [groupSections]
  have g3 : groupSections ["Decisions and Impact"] (s3 ++ "Action Items" :: s4)
      = ("Decisions and Impact" :: s3) :: [("Action Items" :: s4)] := by
    rw [groupSections_pass s3 h3 ["Decisions and Impact"] ("Action Items" :: s4),
      groupSections_break "Action Items" (by decide), g4]
    simp
  have g2 : groupSections ["Main Topics"]
        (s2 ++ "Decisions and Impact" :: (s3 ++ "Action Items" :: s4))
      = ("Main Topics" :: s2) :: ("Decisions and Impact" :: s3) :: [("Action Items" :: s4)] := by
    rw [groupSections_pass s2 h2 ["Main Topics"]
        ("Decisions and Impact" :: (s3 ++ "Action Items" :: s4)),
      groupSections_break "Decisions and Impact" (by decide), g3]
    simp
  have hchunks : splitSections (joinLines ("Meeting Overview" :: (s1 ++ "Main Topics" ::
      (s2 ++ "Decisions and Impact" :: (s3 ++ "Action Items" :: s4)))))
      = [("Meeting Overview" :: s1), ("Main Topics" :: s2),
         ("Decisions and Impact" :: s3), ("Action Items" :: s4)] := by
    unfold splitSections joinLines
    rw [hsplitL]
    show groupSections ["Meeting Overview"] (s1 ++ "Main Topics" ::
      (s2 ++ "Decisions and Impact" :: (s3 ++ "Action Items" :: s4))) = _
    rw [groupSections_pass s1 h1 ["Meeting Overview"]
        ("Main Topics" :: (s2 ++ "Decisions and Impact" :: (s3 ++ "Action Items" :: s4))),
      groupSections_break "Main Topics" (by decide), g2]
    simp
  rw [structure_markdown_eq]
  have hf1 : s1.filter keepLine = s1 :=
    List.filter_eq_self.mpr (fun l hl => by
      simp only [keepLine, bne_iff_ne, ne_eq, decide_not]
      simpa using (hlines l (by simp [hl])).2.1)
  have hf2 : s2.filter keepLine = s2 :=
    List.filter_eq_self.mpr (fun l hl => by
      simp only [keepLine, bne_iff_ne, ne_eq, decide_not]
      simpa using (hlines l (by simp [hl])).2.1)
  have hf3 : s3.filter keepLine = s3 :=
    List.filter_eq_self.mpr (fun l hl => by
      simp only [keepLine, bne_iff_ne, ne_eq, decide_not]
      simpa using (hlines l (by simp [hl])).2.1)
  have hf4 : s4.filter keepLine = s4 :=
    List.filter_eq_self.mpr (fun l hl => by
      simp only [keepLine, bne_iff_ne, ne_eq, decide_not]
      simpa using (hlines l (by simp [hl])).2.1)
  congr 1
  simp only [outLines, hchunks]
  have e1 : pyStrip "Meeting Overview" = "Meeting Overview" := by decide
  have e2 : pyStrip "Main Topics" = "Main Topics" := by decide
  have e3 : pyStrip "Decisions and Impact" = "Decisions and Impact" := by decide
  have e4 : pyStrip "Action Items" = "Action Items" := by decide
  have i1 : "Meeting Overview" ∈ sectionHeaders := by decide
  have i2 : "Main Topics" ∈ sectionHeaders := by decide
  have i3 : "Decisions and Impact" ∈ sectionHeaders := by decide
  have i4 : "Action Items" ∈ sectionHeaders := by decide
  simp [sectionsEmit, chunkEmit, e1, e2, e3, e4, hf1, hf2, hf3, hf4, i1, i2, i3, i4]

set_option maxRecDepth 4096 in
theorem structure_markdown_four_sections_witness :
    structure_markdown
        (joinLines ("Meeting Overview" :: (["A summary."] ++ "Main Topics" ::
          (["- T1 (00:01:00)"] ++ "Decisions and Impact" ::
            (["- D1"] ++ "Action Items" :: ["- A1"]))))) "t" "m1" [⟨"Alice", "55m"⟩]
      = "# m1\n\n## Meeting Overview\nA summary.\n\n## Main Topics\n- T1 (00:01:00)\n\n## Decisions and Impact\n- D1\n\n## Action Items\n- A1\n\n## Participants\n- Alice (Total Duration: 55m)\n" :=
  (structure_markdown_four_sections ["A summary."] ["- T1 (00:01:00)"] ["- D1"] ["- A1"]
    "t" "m1" [⟨"Alice", "55m"⟩] (by decide)).trans (by decide)

/-- C2: content that precedes any recognized section header is emitted
verbatim (non-blank lines, in order) with no `## ` header prepended, and
every `## `-line of the output is either `## Participants`, one of the four
`## <section name>` headers, or a line already present in the input. -/
theorem structure_markdown_preamble_passthrough
    (p : List String) (hp : p ≠ [])
    (hpl : ∀ l ∈ p, ¬ startsWithHeader l ∧ pyStrip l ∉ sectionHeaders ∧ '\n' ∉ l.data)
    (hh : String) (hhh : startsWithHeader hh) (hhn : '\n' ∉ hh.data)
    (r : List String) (hr : ∀ l ∈ r, '\n' ∉ l.data)
    (t b : String) (hb : '\n' ∉ b.data)
    (ps : List Participant)
    (hps : ∀ q ∈ ps, '\n' ∉ q.name.data ∧ '\n' ∉ q.total_duration.data) :
    structure_markdown (joinLines (p ++ hh :: r)) t b ps
      = nlConcat (["# " ++ b, ""] ++ p.filter keepLine ++ [""]
          ++ sectionsEmit (groupSections [hh] r)
          ++ "## Participants" :: ps.map bulletLine)
    ∧ ∀ line ∈ splitLines (structure_markdown (joinLines (p ++ hh :: r)) t b ps),
        ("## ".data).isPrefixOf line.data →
        line = "## Participants" ∨ (∃ hd ∈ sectionHeaders, line = "## " ++ hd)
          ∨ line ∈ p ++ hh :: r := by
  have hfree : ∀ l ∈ p ++ hh :: r, '\n' ∉ l.data := by
    intro l hl
    rcases List.mem_append.mp hl with h | h
    · exact (hpl l h).2.2
    · rcases List.mem_cons.mp h with rfl | h
      · exact hhn
      · exact hr l h
  have hsplitL : splitLines (joinLines (p ++ hh :: r)) = p ++ hh :: r :=
    splitLines_pyJoin _ (by simp) hfree
  constructor
  · rcases p with _ | ⟨p0, p'⟩
    · exact absurd rfl hp
    · have hp' : ∀ l ∈ p', ¬ startsWithHeader l := fun l hl => (hpl l (by simp [hl])).1
      have hchunks : splitSections (joinLines ((p0 :: p') ++ hh :: r))
          = (p0 :: p') :: groupSections [hh] r := by
        unfold splitSections joinLines
        rw [show ((p0 :: p') ++ hh :: r) = (p0 :: (p' ++ hh :: r)) by simp]
        have hfree' : ∀ l ∈ p0 :: (p' ++ hh :: r), '\n' ∉ l.data := by
          intro l hl
          apply hfree
          simpa using hl
        have hsplit2 := splitLines_pyJoin _ (by simp) hfree'
        rw [hsplit2]
        show groupSections [p0] (p' ++ hh :: r) = _
        rw [groupSections_pass p' hp' [p0] (hh :: r), groupSections_break hh hhh]
        simp
      rw [structure_markdown_eq]
      congr 1
      simp only [outLines, hchunks]
      have hcont : ¬ sectionHeaders.contains (pyStrip p0) := by
        simpa using (hpl p0 (by simp)).2.1
      simp [sectionsEmit, chunkEmit, hcont]
      intro hmem
      exact absurd hmem (by simpa using hcont)
  · intro line hline hpre
    have hres := structure_markdown_headers _ t b ps hb hps
      (by rw [hsplitL]; exact hfree) line hline hpre
    rwa [hsplitL] at hres

set_option maxRecDepth 4096 in
theorem structure_markdown_preamble_passthrough_witness :
    structure_markdown (joinLines (["preamble", "## not a real header"] ++
        "Meeting Overview" :: ["A summary."])) "t" "base" [⟨"Alice", "55m"⟩]
      = "# base\n\npreamble\n## not a real header\n\n## Meeting Overview\nA summary.\n\n## Participants\n- Alice (Total Duration: 55m)\n" :=
  ((structure_markdown_preamble_passthrough ["preamble", "## not a real header"] (by decide)
      (by decide) "Meeting Overview" (by decide) (by decide) ["A summary."] (by decide)
      "t" "base" (by decide) [⟨"Alice", "55m"⟩] (by decide)).1).trans (by decide)

theorem replaceFuel_nil (pat rep : List Char) : ∀ fuel, replaceFuel pat rep fuel [] = []
  | 0 => rfl
  | _ + 1 => rfl

theorem isPrefixOf_self (l : List Char) : l.isPrefixOf l = true := by
  induction l with
  | nil => rfl
  | cons c cs ih => simp [List.isPrefixOf, ih]

theorem replaceFuel_strip (pat rep : List Char) (hpat : pat ≠ []) :
    ∀ (stem : List Char) (fuel : Nat), stem.length + pat.length ≤ fuel →
      (∀ i, i < stem.length → ¬ (pat.isPrefixOf ((stem ++ pat).drop i) = true)) →
      replaceFuel pat rep fuel (stem ++ pat) = stem ++ rep := by
  have hplen : 1 ≤ pat.length := List.length_pos.mpr hpat
  intro stem
  induction stem with
  | nil =>
    intro fuel hfuel hocc
    cases fuel with
    | zero => exact absurd (by simpa using hfuel) hpat
    | succ fuel' =>
      simp only [List.nil_append]
      match pat, hpat with
      | c :: pat', _ =>
        rw [replaceFuel]
        rw [if_pos ⟨by simp, isPrefixOf_self _⟩]
        rw [List.drop_length]
        rw [replaceFuel_nil]
        simp
  | cons c stem' ih =>
    intro fuel hfuel hocc
    cases fuel with
    | zero => simp at hfuel
    | succ fuel' =>
      have hhead : ¬ (pat ≠ [] ∧ pat.isPrefixOf ((c :: stem') ++ pat)) := by
        intro hand
        exact hocc 0 (by simp) (by simpa using hand.2)
      simp only [List.cons_append, replaceFuel]
      rw [if_neg (by simpa using hhead)]
      rw [ih fuel' (by simp at hfuel ⊢; omega)
        (fun i hi => by
          have := hocc (i + 1) (by simp; omega)
          simpa using this)]



/-- C5 counterexample: `"a.vtt.vtt"` is matched by the `*.vtt` glob, but
`base_name` is computed with `replace(".vtt", "")`, which removes *every*
occurrence and yields `"a"`, not the extension-stripped `"a.vtt"`. -/
theorem base_name_not_extension_strip :
    matchesVttGlob "a.vtt.vtt" = true
    ∧ stripVttExtension "a.vtt.vtt" = "a.vtt"
    ∧ base_name_of "a.vtt.vtt" = "a"
    ∧ base_name_of "a.vtt.vtt" ≠ stripVttExtension "a.vtt.vtt" := by decide

/-- C5 (amended): for a transcript whose name is a stem (containing no
occurrence of `".vtt"`) followed by the `.vtt` extension, the base name is
the stem, and the default output path is
`{input_dir}/md/summary_{base_name}_{timestamp}.md`. -/
theorem base_name_and_output_path (stem dir ts : String)
    (hstem : ∀ i, i < stem.data.length →
      ¬ (".vtt".data.isPrefixOf ((stem.data ++ ".vtt".data).drop i) = true))
    (hdir1 : dir ≠ "") (hdir2 : dir.data.getLast? ≠ some '/') :
    base_name_of (stem ++ ".vtt") = stem
    ∧ md_file_path dir (base_name_of (stem ++ ".vtt")) ts
        = dir ++ "/md/summary_" ++ stem ++ "_" ++ ts ++ ".md" := by
  have hbase : base_name_of (stem ++ ".vtt") = stem := by
    unfold base_name_of pyReplace replaceList
    rw [String.data_append]
    rw [show (stem.data ++ ".vtt".data).length = stem.data.length + ".vtt".data.length by simp]
    rw [replaceFuel_strip ".vtt".data "".data (by decide) stem.data _ (le_refl _) hstem]
    simp [mk_data]
  refine ⟨hbase, ?_⟩
  rw [hbase]
  unfold md_file_path
  have hj1 : path_join dir "md" = dir ++ "/" ++ "md" := by
    unfold path_join
    rw [if_neg (by decide), if_neg hdir1, if_neg hdir2]
  rw [hj1]
  have hj2 : path_join (dir ++ "/" ++ "md") ("summary_" ++ stem ++ "_" ++ ts ++ ".md")
      = (dir ++ "/" ++ "md") ++ "/" ++ ("summary_" ++ stem ++ "_" ++ ts ++ ".md") := by
    unfold path_join
    rw [if_neg (by simp [String.data_append, List.isPrefixOf]),
      if_neg (by intro h; have := congrArg String.data h; simp [String.data_append] at this),
      if_neg (by simp [String.data_append, List.getLast?_append])]
  rw [hj2]
  apply String.ext
  simp [String.data_append]

theorem base_name_and_output_path_witness :
    base_name_of ("demo" ++ ".vtt") = "demo"
    ∧ md_file_path "transcripts" (base_name_of ("demo" ++ ".vtt")) "20261012120000"
        = "transcripts" ++ "/md/summary_" ++ "demo" ++ "_" ++ "20261012120000" ++ ".md" :=
  base_name_and_output_path "demo" "transcripts" "20261012120000" (by decide) (by decide)
    (by decide)

end Vtt
